import Mathlib

/-!
Verification development for the lbry.go repository.

Two parts are modelled here:

1. The claim codec (decode / compile / signature split / public-key codec /
   builder).  Only the package's test file is available in the repository
   snapshot, so the codec itself is modelled from the specification
   (multi-version envelope with structural version detection, a trailing
   tag+length+content signature block, a DER-style fixed-format public key,
   length-prefixed schema payload fields).  Byte sequences are shallowly
   embedded as `List Nat`.

2. The ytsync orchestrator (`src/ytsync/ytsync.go`): the published-at
   ordering of enqueued videos and the per-video retry loop of
   `startWorker`, translated directly from the Go source.
-/

namespace LbrySpec

/-- Byte sequences are modelled as lists of naturals. -/
abbrev Bytes := List Nat

/-- Modelled from the spec: the version discriminant of a claim
(`{Legacy, Unsigned, Signed}`), section 3 of the spec. -/
inductive Version where
  | Legacy
  | Unsigned
  | Signed
deriving DecidableEq, Repr

/-- Modelled from the spec: the content-type discriminant of a claim
(stream, channel, repost). -/
inductive Variant where
  | Stream
  | Channel
  | Repost
deriving DecidableEq, Repr

/-- Wire tag of a variant. -/
def tagOfVariant : Variant → Nat
  | .Stream => 1
  | .Channel => 2
  | .Repost => 3

/-- Inverse lookup of the variant wire tag; unknown tags are rejected. -/
def variantOfTag : Nat → Option Variant
  | 1 => some .Stream
  | 2 => some .Channel
  | 3 => some .Repost
  | _ => none

/-- Modelled from the spec: the signature block of a Signed claim: a
signature type tag, the 20-byte identifier of the signing channel's claim,
and the raw signature bytes. -/
structure SigBlock where
  sigType : Nat
  channelID : Bytes
  sig : Bytes
deriving DecidableEq, Repr

/-- Modelled from the spec: the unified in-memory representation of a claim
(`ClaimRecord` of spec section 3; `ClaimHelper` in the package's tests).
The schema payload is externally defined, so it is carried as its wire
bytes. -/
structure ClaimRecord where
  version : Version
  variant : Variant
  payload : Bytes
  signature : Option SigBlock
deriving DecidableEq, Repr

/-- Modelled from the spec: the decode error taxonomy of spec section 7. -/
inductive DecodeError where
  | MalformedEnvelope
  | TruncatedInput
  | UnknownVariant
  | InvalidKeyEncoding
  | SchemaPayloadError
deriving DecidableEq, Repr

/-! ### Public-key codec -/

/-- The fixed DER header of the wire form of a public key, as observed in
the sample claims of the package's tests (a SubjectPublicKeyInfo header for
the secp256k1 curve, up to but not including the `0x04` uncompressed-point
marker). -/
def derHeader : Bytes :=
  [0x30, 0x56, 0x30, 0x10, 0x06, 0x07, 0x2a, 0x86, 0x48, 0xce, 0x3d,
   0x02, 0x01, 0x06, 0x05, 0x2b, 0x81, 0x04, 0x00, 0x0a, 0x03, 0x42, 0x00]

/-- An elliptic-curve point, represented by the 32-byte big-endian
encodings of its two coordinates. -/
structure PublicKey where
  x : Bytes
  y : Bytes
deriving DecidableEq, Repr

/-- Modelled from the spec: `encode_public_key(point) -> bytes`
(`PublicKeyToDER` in the package's tests): the DER-style wrapping of the
curve point — fixed header, uncompressed-point marker, then the two
coordinates. -/
def encodePublicKey (k : PublicKey) : Bytes :=
  derHeader ++ 4 :: (k.x ++ k.y)

/-- Modelled from the spec: `decode_public_key(bytes) -> point`, failing
with `InvalidKeyEncoding` if the byte length or structural prefix does not
match the fixed key format (88 bytes, DER header, uncompressed marker). -/
def decodePublicKey (b : Bytes) : Except DecodeError PublicKey :=
  if b.length = 88 ∧ b.take 24 = derHeader ++ [4] then
    .ok ⟨(b.drop 24).take 32, (b.drop 24).drop 32⟩
  else
    .error .InvalidKeyEncoding

/-! ### Envelope codec -/

/-- Wire marker of the legacy envelope. -/
def legacyMarker : Nat := 0

/-- Wire marker of the modern (flat `version, variant, payload`) envelope. -/
def modernMarker : Nat := 1

/-- Wire tag opening a trailing signature block. -/
def sigBlockTag : Nat := 2

/-- Modelled from the spec: the wire framing of a signature block —
tag, content length, then the content (signature type, 20-byte channel
identifier, raw signature). -/
def encodeSigBlock (s : SigBlock) : Bytes :=
  sigBlockTag :: (21 + s.sig.length) :: s.sigType :: (s.channelID ++ s.sig)

/-- Modelled from the spec: `decode(bytes) -> ClaimRecord`
(`DecodeClaimBytes` in the package's tests).  The version is determined
structurally: a legacy envelope wraps a public key directly; a modern
envelope is `marker, variant tag, payload length, payload`, and the claim
is Signed exactly when a trailing signature block follows the payload.
Truncations of a valid prefix fail with `TruncatedInput`; structurally
invalid bytes fail with `MalformedEnvelope`. -/
def decodeClaim (b : Bytes) : Except DecodeError ClaimRecord :=
  match b with
  | [] => .error .TruncatedInput
  | 0 :: rest =>
    match rest with
    | [] => .error .TruncatedInput
    | len :: keyBytes =>
      if keyBytes.length < len then .error .TruncatedInput
      else if len < keyBytes.length then .error .MalformedEnvelope
      else
        match decodePublicKey keyBytes with
        | .error e => .error e
        | .ok _ => .ok ⟨.Legacy, .Channel, keyBytes, none⟩
  | 1 :: rest =>
    match rest with
    | [] => .error .TruncatedInput
    | vt :: rest2 =>
      match variantOfTag vt with
      | none => .error .UnknownVariant
      | some variant =>
        match rest2 with
        | [] => .error .TruncatedInput
        | pl :: rest3 =>
          if rest3.length < pl then .error .TruncatedInput
          else
            match rest3.drop pl with
            | [] => .ok ⟨.Unsigned, variant, rest3.take pl, none⟩
            | 2 :: after =>
              match after with
              | [] => .error .TruncatedInput
              | len :: content =>
                if len < 21 then .error .MalformedEnvelope
                else if content.length < len then .error .TruncatedInput
                else if len < content.length then .error .MalformedEnvelope
                else
                  match content with
                  | [] => .error .MalformedEnvelope
                  | st :: rest6 =>
                    .ok ⟨.Signed, variant, rest3.take pl,
                         some ⟨st, rest6.take 20, rest6.drop 20⟩⟩
            | _ :: _ => .error .MalformedEnvelope
  | _ => .error .MalformedEnvelope

/-- Modelled from the spec: `compile(record) -> bytes` (`CompileValue` in
the package's tests): serialize the payload, wrap it per the record's
version's envelope rules, and append the signature block if present. -/
def compileValue (r : ClaimRecord) : Bytes :=
  match r.version with
  | .Legacy => 0 :: r.payload.length :: r.payload
  | _ =>
    1 :: tagOfVariant r.variant :: r.payload.length :: r.payload
      ++ (match r.signature with
          | none => []
          | some s => encodeSigBlock s)

/-- Modelled from the spec: the serialization of a record's Unsigned form
(`serializedNoSignature` in the package's tests): the version/variant/
payload bytes with no signature block. -/
def serializedNoSignature (r : ClaimRecord) : Bytes :=
  compileValue ⟨.Unsigned, r.variant, r.payload, none⟩

/-- Modelled from the spec: `strip_signature(bytes)`: syntactically remove
the trailing signature block (tag + length + content) when a well-formed
one is present; otherwise return the input unchanged. -/
def stripSignature (b : Bytes) : Bytes :=
  match b with
  | 1 :: vt :: pl :: rest =>
    if rest.length ≤ pl then b
    else
      match rest.drop pl with
      | 2 :: len :: content =>
        if 21 ≤ len ∧ content.length = len then 1 :: vt :: pl :: rest.take pl
        else b
      | _ => b
  | _ => b

/-- Modelled from the spec: attaching a signature block to a record — the
only legal Unsigned-to-Signed transition. -/
def attachSignature (r : ClaimRecord) (s : SigBlock) : ClaimRecord :=
  ⟨.Signed, r.variant, r.payload, some s⟩

/-- Modelled from the spec: explicit signature removal — the only legal
Signed-to-Unsigned transition. -/
def removeSignature (r : ClaimRecord) : ClaimRecord :=
  ⟨.Unsigned, r.variant, r.payload, none⟩

/-- A field mutation: it may rewrite the payload but touches neither the
version nor the signature block. -/
def mutatePayload (r : ClaimRecord) (g : Bytes → Bytes) : ClaimRecord :=
  { r with payload := g r.payload }

/-! ### Schema payload codec

Modelled from the spec: the externally defined schema is embedded as
length-prefixed fields in a fixed order, so that the encoding is
deterministic and parsing is its exact inverse. -/

/-- A length-prefixed field. -/
def encB (b : Bytes) : Bytes := b.length :: b

/-- Parse one length-prefixed field, returning it and the remaining
bytes. -/
def parseB (b : Bytes) : Option (Bytes × Bytes) :=
  match b with
  | [] => none
  | n :: rest =>
    if n ≤ rest.length then some (rest.take n, rest.drop n) else none

/-- A count-prefixed list of fields. -/
def encListWith (enc : α → Bytes) (xs : List α) : Bytes :=
  xs.length :: xs.foldr (fun x acc => enc x ++ acc) []

/-- Parse `n` consecutive elements. -/
def parseCount (p : Bytes → Option (α × Bytes)) :
    Nat → Bytes → Option (List α × Bytes)
  | 0, b => some ([], b)
  | n + 1, b =>
    match p b with
    | none => none
    | some (x, b2) =>
      match parseCount p n b2 with
      | none => none
      | some (xs, b3) => some (x :: xs, b3)

/-- Parse a count-prefixed list of fields. -/
def parseListWith (p : Bytes → Option (α × Bytes)) (b : Bytes) :
    Option (List α × Bytes) :=
  match b with
  | [] => none
  | n :: rest => parseCount p n rest

/-- Modelled from the spec: a location entry (country, state, city), as set
by the builder scenario of the package's tests. -/
structure Location where
  country : Nat
  state : Bytes
  city : Bytes
deriving DecidableEq, Repr

/-- Serialize one location. -/
def encLoc (l : Location) : Bytes :=
  l.country :: (encB l.state ++ encB l.city)

/-- Parse one location. -/
def parseLoc (b : Bytes) : Option (Location × Bytes) :=
  match b with
  | [] => none
  | c :: rest =>
    match parseB rest with
    | none => none
    | some (st, r2) =>
      match parseB r2 with
      | none => none
      | some (ci, r3) => some (⟨c, st, ci⟩, r3)

/-- Modelled from the spec: the schema fields of a channel claim — the
shared descriptive fields plus the channel-specific cover, website URL and
public key. -/
structure ChannelPayload where
  title : Bytes
  description : Bytes
  tags : List Bytes
  languages : Bytes
  locations : List Location
  thumbnailUrl : Bytes
  websiteUrl : Bytes
  coverUrl : Bytes
  publicKey : Bytes
deriving DecidableEq, Repr

/-- Serialize a channel payload, fields in fixed order. -/
def encodeChannelPayload (f : ChannelPayload) : Bytes :=
  encB f.title ++ encB f.description ++ encListWith encB f.tags ++
  encB f.languages ++ encListWith encLoc f.locations ++
  encB f.thumbnailUrl ++ encB f.websiteUrl ++ encB f.coverUrl ++
  encB f.publicKey

/-- Parse a channel payload, returning the remaining bytes. -/
def parseChannelPayload (b : Bytes) : Option (ChannelPayload × Bytes) := do
  let (title, b) ← parseB b
  let (description, b) ← parseB b
  let (tags, b) ← parseListWith parseB b
  let (languages, b) ← parseB b
  let (locations, b) ← parseListWith parseLoc b
  let (thumbnailUrl, b) ← parseB b
  let (websiteUrl, b) ← parseB b
  let (coverUrl, b) ← parseB b
  let (publicKey, b) ← parseB b
  pure (⟨title, description, tags, languages, locations, thumbnailUrl,
         websiteUrl, coverUrl, publicKey⟩, b)

/-- Decode a complete channel payload (no trailing bytes allowed). -/
def decodeChannelPayload (b : Bytes) : Option ChannelPayload :=
  match parseChannelPayload b with
  | some (f, []) => some f
  | _ => none

/-- Modelled from the spec: the schema fields of a stream claim — the
shared descriptive fields plus the stream's media source, author and
license. -/
structure StreamPayload where
  title : Bytes
  description : Bytes
  tags : List Bytes
  languages : Bytes
  locations : List Location
  thumbnailUrl : Bytes
  author : Bytes
  license : Bytes
  sourceUrl : Bytes
deriving DecidableEq, Repr

/-- Serialize a stream payload, fields in fixed order. -/
def encodeStreamPayload (f : StreamPayload) : Bytes :=
  encB f.title ++ encB f.description ++ encListWith encB f.tags ++
  encB f.languages ++ encListWith encLoc f.locations ++
  encB f.thumbnailUrl ++ encB f.author ++ encB f.license ++
  encB f.sourceUrl

/-- Parse a stream payload, returning the remaining bytes. -/
def parseStreamPayload (b : Bytes) : Option (StreamPayload × Bytes) := do
  let (title, b) ← parseB b
  let (description, b) ← parseB b
  let (tags, b) ← parseListWith parseB b
  let (languages, b) ← parseB b
  let (locations, b) ← parseListWith parseLoc b
  let (thumbnailUrl, b) ← parseB b
  let (author, b) ← parseB b
  let (license, b) ← parseB b
  let (sourceUrl, b) ← parseB b
  pure (⟨title, description, tags, languages, locations, thumbnailUrl,
         author, license, sourceUrl⟩, b)

/-- Decode a complete stream payload (no trailing bytes allowed). -/
def decodeStreamPayload (b : Bytes) : Option StreamPayload :=
  match parseStreamPayload b with
  | some (f, []) => some f
  | _ => none

/-- The all-zero channel payload. -/
def zeroChannelPayload : ChannelPayload := ⟨[], [], [], [], [], [], [], [], []⟩

/-- The all-zero stream payload. -/
def zeroStreamPayload : StreamPayload := ⟨[], [], [], [], [], [], [], [], []⟩

/-- Modelled from the spec: `new_channel_skeleton()` (`newChannelClaim` in
the package's tests): an empty channel-tagged record with
`version = Unsigned` and all schema fields at their zero value. -/
def newChannelSkeleton : ClaimRecord :=
  ⟨.Unsigned, .Channel, encodeChannelPayload zeroChannelPayload, none⟩

/-- Modelled from the spec: `new_stream_skeleton()`: an empty stream-tagged
record with `version = Unsigned` and all schema fields at their zero
value. -/
def newStreamSkeleton : ClaimRecord :=
  ⟨.Unsigned, .Stream, encodeStreamPayload zeroStreamPayload, none⟩

/-- Apply a field update to the channel payload carried by a record.  Only
the payload bytes change; version and signature are untouched. -/
def updateChannel (u : ChannelPayload → ChannelPayload) (r : ClaimRecord) :
    ClaimRecord :=
  { r with payload :=
      match decodeChannelPayload r.payload with
      | some f => encodeChannelPayload (u f)
      | none => r.payload }

/-- Builder mutator: set the title. -/
def setTitle (t : Bytes) : ClaimRecord → ClaimRecord :=
  updateChannel (fun f => { f with title := t })

/-- Builder mutator: set the description. -/
def setDescription (d : Bytes) : ClaimRecord → ClaimRecord :=
  updateChannel (fun f => { f with description := d })

/-- Builder mutator: set the tags. -/
def setTags (tg : List Bytes) : ClaimRecord → ClaimRecord :=
  updateChannel (fun f => { f with tags := tg })

/-- Builder mutator: set the languages. -/
def setLanguages (lg : Bytes) : ClaimRecord → ClaimRecord :=
  updateChannel (fun f => { f with languages := lg })

/-- Builder mutator: set the locations. -/
def setLocations (ls : List Location) : ClaimRecord → ClaimRecord :=
  updateChannel (fun f => { f with locations := ls })

/-- Builder mutator: set the thumbnail source URL. -/
def setThumbnail (th : Bytes) : ClaimRecord → ClaimRecord :=
  updateChannel (fun f => { f with thumbnailUrl := th })

/-- Builder mutator: set the channel's website URL. -/
def setWebsiteUrl (w : Bytes) : ClaimRecord → ClaimRecord :=
  updateChannel (fun f => { f with websiteUrl := w })

/-- Builder mutator: set the channel's cover source URL. -/
def setCover (c : Bytes) : ClaimRecord → ClaimRecord :=
  updateChannel (fun f => { f with coverUrl := c })

/-- Builder mutator: store the wire-form public key verbatim. -/
def setPublicKey (k : Bytes) : ClaimRecord → ClaimRecord :=
  updateChannel (fun f => { f with publicKey := k })

/-- The end-to-end builder scenario of the package's tests: start from the
channel skeleton and set every field. -/
def builtChannel (t d : Bytes) (tg : List Bytes) (lg : Bytes)
    (ls : List Location) (th w c k : Bytes) : ClaimRecord :=
  setPublicKey k (setCover c (setWebsiteUrl w (setThumbnail th
    (setLocations ls (setLanguages lg (setTags tg
      (setDescription d (setTitle t newChannelSkeleton))))))))

/-- Modelled from the spec: the records reachable through the public API —
decoding, the builder skeletons, field mutation, and explicit signature
attach/remove. -/
inductive Reachable : ClaimRecord → Prop where
  | ofDecode (b : Bytes) (r : ClaimRecord) :
      decodeClaim b = .ok r → Reachable r
  | channelSkeleton : Reachable newChannelSkeleton
  | streamSkeleton : Reachable newStreamSkeleton
  | mutate (r : ClaimRecord) (g : Bytes → Bytes) :
      Reachable r → Reachable (mutatePayload r g)
  | attach (r : ClaimRecord) (s : SigBlock) :
      Reachable r → r.version = .Unsigned → Reachable (attachSignature r s)
  | remove (r : ClaimRecord) :
      Reachable r → Reachable (removeSignature r)

end LbrySpec

namespace Ytsync

/-- A video as seen by the sync orchestrator (`video` interface in
`src/ytsync/ytsync.go`): only the fields the enqueue/worker logic reads. -/
structure SyncVideo where
  id : Nat
  playlistPosition : Nat
  publishedAt : Nat
deriving DecidableEq, Repr

/-- The comparison of `byPublishedAt.Less` (ytsync.go line 50):
`a[i].PublishedAt().Before(a[j].PublishedAt())`.  Sorting with it orders
videos by non-decreasing `PublishedAt`; `sort.Sort` is embedded as an
insertion sort under the corresponding non-strict order. -/
def publishedLE (a b : SyncVideo) : Prop := a.publishedAt ≤ b.publishedAt

instance : DecidableRel publishedLE :=
  fun a b => Nat.decLe a.publishedAt b.publishedAt

instance : IsTotal SyncVideo publishedLE :=
  ⟨fun a b => Nat.le_total a.publishedAt b.publishedAt⟩

instance : IsTrans SyncVideo publishedLE := ⟨fun _ _ _ => Nat.le_trans⟩

instance : IsRefl SyncVideo publishedLE := ⟨fun _ => Nat.le_refl _⟩

/-- `sort.Sort(byPublishedAt(videos))` as used by both enqueue paths. -/
def sortByPublishedAt (vs : List SyncVideo) : List SyncVideo :=
  List.insertionSort publishedLE vs

/-- `enqueueYoutubeVideos` (ytsync.go lines 349-428): collect all videos
from the API, sort them by published date, then send them into the queue.
`sent` bounds how many are sent before an interrupt stops the loop; the
enqueue loop never reorders. -/
def enqueueYoutubeVideos (collected : List SyncVideo) (sent : Nat) :
    List SyncVideo :=
  (sortByPublishedAt collected).take sent

/-- `enqueueUCBVideos` (ytsync.go lines 430-477): parse all videos from the
CSV, sort them by published date, then send them into the queue, possibly
stopping early on interrupt. -/
def enqueueUCBVideos (parsed : List SyncVideo) (sent : Nat) :
    List SyncVideo :=
  (sortByPublishedAt parsed).take sent

/-- The outcome of one `processVideo` error, classified by the substring
tests of `startWorker` (ytsync.go lines 295-336): membership in the
`fatalErrors` list, membership in the `errorsNoRetry` list, and the
mempool/insufficient-funds tests that trigger a wallet refill. -/
structure VErr where
  fatalMatch : Bool
  noRetryMatch : Bool
  mempoolMatch : Bool
deriving DecidableEq, Repr

/-- The worker configuration read by the retry loop. -/
structure WorkerCfg where
  maxTries : Nat
  stopOnError : Bool
deriving DecidableEq, Repr

/-- Observable outcome of one pass of the retry loop over a single video:
how many times `processVideo` ran, how many times the video was marked
failed, whether the stop group was stopped, and whether the video was
eventually processed successfully. -/
structure WorkerResult where
  attempts : Nat
  markedFailed : Nat
  groupStopped : Bool
  succeeded : Bool
deriving DecidableEq, Repr

/-- The retry loop of `startWorker` (ytsync.go lines 290-345), translated
branch by branch.  `att t` is the result of the `t`-th (0-based) call to
`processVideo` (`none` = success); `w t` tells whether the wallet refill
performed after a mempool-class error on attempt `t` succeeds.  `t + 1` is
the code's `tryCount`.  The first argument is recursion fuel; the loop
retries only while `tryCount < MaxTries`, so fuel `maxTries + 1` started
at `t = 0` is never exhausted. -/
def retryLoopFrom (cfg : WorkerCfg) (att : Nat → Option VErr)
    (w : Nat → Bool) : Nat → Nat → WorkerResult
  | 0, t => ⟨t, 0, false, false⟩
  | fuel + 1, t =>
    match att t with
    | none => ⟨t + 1, 0, false, true⟩
    | some e =>
      if e.fatalMatch || cfg.stopOnError then ⟨t + 1, 1, true, false⟩
      else if 1 < cfg.maxTries then
        if e.noRetryMatch then ⟨t + 1, 1, false, false⟩
        else if t + 1 < cfg.maxTries then
          if e.mempoolMatch && !(w t) then ⟨t + 1, 0, true, false⟩
          else retryLoopFrom cfg att w fuel (t + 1)
        else ⟨t + 1, 1, false, false⟩
      else ⟨t + 1, 1, false, false⟩

/-- One video taken from the queue, processed by the retry loop from the
first attempt.  Fuel `maxTries + 1` covers every configuration (the Go
loop makes exactly one attempt even when `MaxTries ≤ 0`). -/
def runWorkerVideo (cfg : WorkerCfg) (att : Nat → Option VErr)
    (w : Nat → Bool) : WorkerResult :=
  retryLoopFrom cfg att w (cfg.maxTries + 1) 0

/-- A run in which the first attempt fails with a mempool-class error and
the wallet refill then fails: the loop stops the group and breaks without
marking the video. -/
def walletAbortErr : VErr := ⟨false, false, true⟩

end Ytsync

namespace LbrySpec

/-! ### Helper lemmas -/

theorem tagOf_variantOfTag {vt : Nat} {v : Variant}
    (h : variantOfTag vt = some v) : tagOfVariant v = vt := by
  rcases vt with _ | (_ | (_ | (_ | vt)))
  · simp [variantOfTag] at h
  · simp [variantOfTag] at h; subst h; rfl
  · simp [variantOfTag] at h; subst h; rfl
  · simp [variantOfTag] at h; subst h; rfl
  · simp [variantOfTag] at h

theorem variantOfTag_tagOf (v : Variant) :
    variantOfTag (tagOfVariant v) = some v := by
  cases v <;> rfl

theorem decodePublicKey_ok_length {b : Bytes} {k : PublicKey}
    (h : decodePublicKey b = .ok k) : b.length = 88 := by
  unfold decodePublicKey at h
  split_ifs at h with hc
  exact hc.1

/-- Characterization of successfully decoded byte sequences: each version's
wire shape is fully determined by the decoded record. -/
theorem decodeClaim_ok_shape {b : Bytes} {r : ClaimRecord}
    (h : decodeClaim b = .ok r) :
    (r.version = .Legacy ∧ r.variant = .Channel ∧ r.signature = none ∧
      r.payload.length = 88 ∧ b = 0 :: r.payload.length :: r.payload) ∨
    (r.version = .Unsigned ∧ r.signature = none ∧
      b = 1 :: tagOfVariant r.variant :: r.payload.length :: r.payload) ∨
    (∃ s, r.version = .Signed ∧ r.signature = some s ∧
      s.channelID.length = 20 ∧
      b = 1 :: tagOfVariant r.variant :: r.payload.length :: r.payload
            ++ encodeSigBlock s) := by
  rcases b with _ | ⟨b0, rest⟩
  · simp [decodeClaim] at h
  rcases b0 with _ | (_ | b0)
  · -- legacy envelope
    rcases rest with _ | ⟨len, keyBytes⟩
    · simp [decodeClaim] at h
    simp only [decodeClaim] at h
    split_ifs at h with h1 h2
    split at h
    next e heq => exact Except.noConfusion h
    next k heq =>
      simp only [Except.ok.injEq] at h
      subst h
      have hlen : keyBytes.length = 88 := decodePublicKey_ok_length heq
      have hl : len = keyBytes.length := by omega
      subst hl
      exact Or.inl ⟨rfl, rfl, rfl, hlen, rfl⟩
  · -- modern envelope
    rcases rest with _ | ⟨vt, rest2⟩
    · simp [decodeClaim] at h
    rcases rest2 with _ | ⟨pl, rest3⟩
    · simp only [decodeClaim] at h
      split at h
      next => exact Except.noConfusion h
      next => exact Except.noConfusion h
    simp only [decodeClaim] at h
    split at h
    next hv => exact Except.noConfusion h
    next v hv =>
    have hvt : tagOfVariant v = vt := tagOf_variantOfTag hv
    split_ifs at h with h1
    split at h
    next hd =>
      -- no trailing bytes: Unsigned
      simp only [Except.ok.injEq] at h
      subst h
      have hle : rest3.length ≤ pl := List.drop_eq_nil_iff.mp hd
      have hplen : rest3.length = pl := by omega
      refine Or.inr (Or.inl ⟨rfl, rfl, ?_⟩)
      simp only [hvt]
      rw [List.take_of_length_le hle, hplen]
    next after hd =>
      -- trailing signature block
      split at h
      next => exact Except.noConfusion h
      next len content =>
      split_ifs at h with h2 h3 h4
      split at h
      next => exact Except.noConfusion h
      next st rest6 =>
        simp only [Except.ok.injEq] at h
        subst h
        have hpl : pl ≤ rest3.length := Nat.le_of_not_lt h1
        have hlen1 : len ≤ rest6.length + 1 := by
          simpa using Nat.le_of_not_lt h3
        have hlen2 : rest6.length + 1 ≤ len := by
          simpa using Nat.le_of_not_lt h4
        have hcl : rest6.length + 1 = len := by omega
        have h21 : 21 ≤ len := Nat.le_of_not_lt h2
        refine Or.inr (Or.inr ⟨⟨st, rest6.take 20, rest6.drop 20⟩,
          rfl, rfl, ?_, ?_⟩)
        · simp only [List.length_take]
          omega
        · have hblock :
              encodeSigBlock ⟨st, rest6.take 20, rest6.drop 20⟩
                = 2 :: len :: st :: rest6 := by
            simp only [encodeSigBlock, sigBlockTag, List.take_append_drop,
              List.length_drop]
            have h20 : 21 + (rest6.length - 20) = len := by omega
            rw [h20]
          simp only [hvt, hblock, List.cons_append]
          have htk : (rest3.take pl).length = pl := by
            simp only [List.length_take]
            omega
          rw [htk]
          have hjoin : rest3.take pl ++ 2 :: len :: st :: rest6 = rest3 := by
            conv_rhs => rw [← List.take_append_drop pl rest3]
            rw [hd]
          rw [hjoin]
    next hd₁ hd₂ => exact Except.noConfusion h
  · -- unknown leading marker
    simp [decodeClaim] at h

/-- The byte length of a signature block's wire framing. -/
theorem length_encodeSigBlock (s : SigBlock) :
    (encodeSigBlock s).length = 3 + s.channelID.length + s.sig.length := by
  simp [encodeSigBlock]
  omega

/-- Stripping a modern claim that carries a well-formed trailing signature
block removes exactly that block. -/
theorem stripSignature_append_block (vt : Nat) (p : Bytes) (s : SigBlock)
    (hchid : s.channelID.length = 20) :
    stripSignature (1 :: vt :: p.length :: (p ++ encodeSigBlock s))
      = 1 :: vt :: p.length :: p := by
  have hblen : (encodeSigBlock s).length = 23 + s.sig.length := by
    rw [length_encodeSigBlock, hchid]
  simp only [stripSignature]
  have hcond : ¬((p ++ encodeSigBlock s).length ≤ p.length) := by
    rw [List.length_append, hblen]
    omega
  rw [if_neg hcond, List.drop_left]
  simp only [encodeSigBlock, sigBlockTag]
  have hclen : (s.sigType :: (s.channelID ++ s.sig)).length
      = 21 + s.sig.length := by
    simp [hchid]
    omega
  rw [if_pos ⟨by omega, hclen⟩, List.take_left]

/-!
C1 -/

/-- C1: for every claim byte sequence `B` in any known version (Legacy,
Unsigned, Signed), decoding `B` into a record and re-compiling that record
with no field mutated reproduces `B` exactly, byte for byte:
`compile(decode(B)) == B`. -/
theorem claim_C1 (b : Bytes) (r : ClaimRecord)
    (h : decodeClaim b = .ok r) : compileValue r = b := by
  rcases decodeClaim_ok_shape h with ⟨hv, _, _, _, hb⟩ | ⟨hv, hs, hb⟩ |
    ⟨s, hv, hs, _, hb⟩
  · rw [hb]
    simp [compileValue, hv]
  · rw [hb]
    simp [compileValue, hv, hs]
  · rw [hb]
    simp [compileValue, hv, hs]

/-- Witness for C1 at a concrete Unsigned stream claim. -/
theorem claim_C1_witness :
    compileValue ⟨.Unsigned, .Stream, [5, 6], none⟩ = [1, 1, 2, 5, 6] :=
  claim_C1 [1, 1, 2, 5, 6] ⟨.Unsigned, .Stream, [5, 6], none⟩ rfl

/-!
C2 -/

/-- C2: for a decoded Signed claim, serializing without the signature
(`strip_signature`) returns exactly the bytes of the corresponding
Unsigned form of the same claim: the version/variant/payload bytes with
the trailing signature block (tag + length + content) removed, and no
other bytes changed. -/
theorem claim_C2 (b : Bytes) (r : ClaimRecord) (h : decodeClaim b = .ok r)
    (hv : r.version = .Signed) :
    ∃ s, r.signature = some s ∧
      stripSignature b = serializedNoSignature r ∧
      b = serializedNoSignature r ++ encodeSigBlock s := by
  rcases decodeClaim_ok_shape h with ⟨h1, _⟩ | ⟨h1, _⟩ |
    ⟨s, _, hs, hchid, hb⟩
  · rw [h1] at hv
    exact Version.noConfusion hv
  · rw [h1] at hv
    exact Version.noConfusion hv
  · have hser : serializedNoSignature r
        = 1 :: tagOfVariant r.variant :: r.payload.length :: r.payload := by
      simp [serializedNoSignature, compileValue]
    refine ⟨s, hs, ?_, ?_⟩
    · rw [hb, hser]
      simpa only [List.cons_append] using
        stripSignature_append_block (tagOfVariant r.variant) r.payload s hchid
    · rw [hb, hser]

/-- Witness for C2 at a concrete Signed stream claim. -/
theorem claim_C2_witness :
    ∃ s, (⟨.Signed, .Stream, [9],
        some ⟨7, List.replicate 20 0, [1, 2]⟩⟩ : ClaimRecord).signature
          = some s ∧
      stripSignature
          ([1, 1, 1, 9] ++ encodeSigBlock ⟨7, List.replicate 20 0, [1, 2]⟩)
        = serializedNoSignature
            ⟨.Signed, .Stream, [9], some ⟨7, List.replicate 20 0, [1, 2]⟩⟩ ∧
      [1, 1, 1, 9] ++ encodeSigBlock ⟨7, List.replicate 20 0, [1, 2]⟩
        = serializedNoSignature
            ⟨.Signed, .Stream, [9], some ⟨7, List.replicate 20 0, [1, 2]⟩⟩
          ++ encodeSigBlock s :=
  claim_C2 ([1, 1, 1, 9] ++ encodeSigBlock ⟨7, List.replicate 20 0, [1, 2]⟩)
    ⟨.Signed, .Stream, [9], some ⟨7, List.replicate 20 0, [1, 2]⟩⟩
    (by rfl) rfl

/-!
C5 -/

/-- C5: `strip_signature` is idempotent: for every byte sequence `B`,
`strip_signature(strip_signature(B)) == strip_signature(B)`; in
particular, applying it to bytes that carry no signature block returns the
input unchanged. -/
theorem claim_C5 (b : Bytes) :
    stripSignature (stripSignature b) = stripSignature b := by
  rcases b with _ | ⟨b0, rest⟩
  · rfl
  rcases b0 with _ | (_ | b0)
  · rfl
  · rcases rest with _ | ⟨vt, rest1⟩
    · rfl
    rcases rest1 with _ | ⟨pl, rest2⟩
    · rfl
    by_cases hle : rest2.length ≤ pl
    · have hb : stripSignature (1 :: vt :: pl :: rest2)
          = 1 :: vt :: pl :: rest2 := by
        simp only [stripSignature]
        rw [if_pos hle]
      rw [hb]
      exact hb
    · rcases hd : rest2.drop pl with _ | ⟨m, after⟩
      · exact absurd (List.drop_eq_nil_iff.mp hd) hle
      rcases m with _ | (_ | (_ | m))
      · have hb : stripSignature (1 :: vt :: pl :: rest2)
            = 1 :: vt :: pl :: rest2 := by
          simp only [stripSignature]
          rw [if_neg hle, hd]
        rw [hb]
        exact hb
      · have hb : stripSignature (1 :: vt :: pl :: rest2)
            = 1 :: vt :: pl :: rest2 := by
          simp only [stripSignature]
          rw [if_neg hle, hd]
        rw [hb]
        exact hb
      · rcases after with _ | ⟨len, content⟩
        · have hb : stripSignature (1 :: vt :: pl :: rest2)
              = 1 :: vt :: pl :: rest2 := by
            simp only [stripSignature]
            rw [if_neg hle, hd]
          rw [hb]
          exact hb
        · by_cases hc : 21 ≤ len ∧ content.length = len
          · have hb : stripSignature (1 :: vt :: pl :: rest2)
                = 1 :: vt :: pl :: rest2.take pl := by
              simp only [stripSignature]
              rw [if_neg hle, hd]
              exact if_pos hc
            rw [hb]
            have hlen : (rest2.take pl).length ≤ pl := by
              rw [List.length_take]
              exact min_le_left _ _
            simp only [stripSignature]
            rw [if_pos hlen]
          · have hb : stripSignature (1 :: vt :: pl :: rest2)
                = 1 :: vt :: pl :: rest2 := by
              simp only [stripSignature]
              rw [if_neg hle, hd]
              exact if_neg hc
            rw [hb]
            exact hb
      · have hb : stripSignature (1 :: vt :: pl :: rest2)
            = 1 :: vt :: pl :: rest2 := by
          simp only [stripSignature]
          rw [if_neg hle, hd]
          rfl
        rw [hb]
        exact hb
  · rfl

/-!
C3 -/

theorem decodeClaim_legacy_trunc (len : Nat) (key : Bytes)
    (h : key.length < len) :
    decodeClaim (0 :: len :: key) = .error .TruncatedInput := by
  simp only [decodeClaim]
  rw [if_pos h]

theorem decodeClaim_two (vt : Nat) (v : Variant)
    (hv : variantOfTag vt = some v) :
    decodeClaim [1, vt] = .error .TruncatedInput := by
  simp [decodeClaim, hv]

theorem decodeClaim_payload_trunc (vt : Nat) (v : Variant)
    (hv : variantOfTag vt = some v) (pl : Nat) (rest3 : Bytes)
    (h : rest3.length < pl) :
    decodeClaim (1 :: vt :: pl :: rest3) = .error .TruncatedInput := by
  simp only [decodeClaim, hv]
  rw [if_pos h]

theorem decodeClaim_sig_trunc (vt : Nat) (v : Variant)
    (hv : variantOfTag vt = some v) (pl : Nat) (rest3 : Bytes)
    (hlen : ¬rest3.length < pl) (len : Nat) (content : Bytes)
    (hd : rest3.drop pl = 2 :: len :: content)
    (h21 : ¬len < 21) (hshort : content.length < len) :
    decodeClaim (1 :: vt :: pl :: rest3) = .error .TruncatedInput := by
  simp only [decodeClaim, hv]
  rw [if_neg hlen, hd]
  simp [h21, hshort]

/-- C3: decoding a truncated buffer (a valid claim prefix with required
trailing bytes missing — up to the last 5 bytes removed, as in the spec's
malformed-input scenario) fails with the `TruncatedInput` error, which is
distinct from `MalformedEnvelope`, and never crashes or yields a silent
partial record. -/
theorem claim_C3 (b : Bytes) (r : ClaimRecord) (k : Nat)
    (h : decodeClaim b = .ok r) (hk1 : 0 < k) (hk5 : k ≤ 5) :
    decodeClaim (b.take (b.length - k)) = .error .TruncatedInput := by
  rcases decodeClaim_ok_shape h with ⟨_, _, _, hp88, hb⟩ | ⟨_, _, hb⟩ |
    ⟨s, _, _, hchid, hb⟩
  · -- legacy claim: the key bytes get cut short
    subst hb
    have hlen : (0 :: r.payload.length :: r.payload).length = 90 := by
      simp [hp88]
    rw [hlen]
    have hm : 90 - k = (88 - k) + 1 + 1 := by omega
    rw [hm]
    simp only [List.take_succ_cons]
    exact decodeClaim_legacy_trunc r.payload.length _
      (by rw [List.length_take, hp88]; omega)
  · -- unsigned claim: header or payload gets cut short
    subst hb
    have hlen :
        (1 :: tagOfVariant r.variant :: r.payload.length :: r.payload).length
          = r.payload.length + 3 := by
      simp
    rw [hlen]
    by_cases h1 : k ≤ r.payload.length
    · have hm : r.payload.length + 3 - k
          = (r.payload.length - k) + 1 + 1 + 1 := by omega
      rw [hm]
      simp only [List.take_succ_cons]
      exact decodeClaim_payload_trunc _ r.variant (variantOfTag_tagOf _)
        r.payload.length _ (by rw [List.length_take]; omega)
    · by_cases h2 : k = r.payload.length + 1
      · have hm : r.payload.length + 3 - k = 2 := by omega
        rw [hm]
        have ht : (1 :: tagOfVariant r.variant :: r.payload.length ::
            r.payload).take 2 = [1, tagOfVariant r.variant] := rfl
        rw [ht]
        exact decodeClaim_two _ r.variant (variantOfTag_tagOf _)
      · by_cases h3 : k = r.payload.length + 2
        · have hm : r.payload.length + 3 - k = 1 := by omega
          rw [hm]
          have ht : (1 :: tagOfVariant r.variant :: r.payload.length ::
              r.payload).take 1 = [1] := rfl
          rw [ht]
          rfl
        · have hm : r.payload.length + 3 - k = 0 := by omega
          rw [hm, List.take_zero]
          rfl
  · -- signed claim: the signature block gets cut short
    subst hb
    simp only [List.cons_append]
    have hblock : (encodeSigBlock s).length = 23 + s.sig.length := by
      rw [length_encodeSigBlock, hchid]
    have hlen : (1 :: tagOfVariant r.variant :: r.payload.length ::
        (r.payload ++ encodeSigBlock s)).length
          = r.payload.length + s.sig.length + 26 := by
      simp [hblock]
      omega
    rw [hlen]
    have hm : r.payload.length + s.sig.length + 26 - k
        = (r.payload.length + (23 + s.sig.length - k)) + 1 + 1 + 1 := by
      omega
    rw [hm]
    simp only [List.take_succ_cons]
    rw [List.take_append]
    simp only [encodeSigBlock, sigBlockTag]
    have hi : 23 + s.sig.length - k = (21 + s.sig.length - k) + 1 + 1 := by
      omega
    rw [hi]
    simp only [List.take_succ_cons]
    exact decodeClaim_sig_trunc _ r.variant (variantOfTag_tagOf _)
      r.payload.length _
      (by simp only [List.length_append, List.length_cons]; omega)
      (21 + s.sig.length) _ (List.drop_left _ _) (by omega)
      (by rw [List.length_take]
          simp only [List.length_cons, List.length_append, hchid]
          omega)

/-- Witness for C3: the 4-byte prefix of a 5-byte Unsigned claim decodes
to `TruncatedInput`. -/
theorem claim_C3_witness :
    decodeClaim (([1, 1, 2, 5, 6] : Bytes).take
      (([1, 1, 2, 5, 6] : Bytes).length - 1)) = .error .TruncatedInput :=
  claim_C3 [1, 1, 2, 5, 6] ⟨.Unsigned, .Stream, [5, 6], none⟩ 1 (by rfl)
    (by decide) (by decide)

/-!
C4 -/

/-- C4: for every valid elliptic-curve public key `K`, decoding the wire
(DER-style) encoding of `K` yields `K` back:
`decode_public_key(encode_public_key(K)) == K`; decoding fails with
`InvalidKeyEncoding` exactly when the byte length or structural prefix
does not match the fixed key format. -/
theorem claim_C4 :
    (∀ k : PublicKey, k.x.length = 32 → k.y.length = 32 →
      decodePublicKey (encodePublicKey k) = .ok k) ∧
    (∀ b : Bytes, decodePublicKey b = .error .InvalidKeyEncoding ↔
      (b.length ≠ 88 ∨ b.take 24 ≠ derHeader ++ [4])) := by
  constructor
  · intro k hx hy
    have hlen : (encodePublicKey k).length = 88 := by
      simp [encodePublicKey, derHeader, hx, hy]
    have h24 : (24 : Nat) = derHeader.length + 1 := rfl
    have htake : (encodePublicKey k).take 24 = derHeader ++ [4] := by
      rw [encodePublicKey, h24, List.take_append]
      rfl
    unfold decodePublicKey
    rw [if_pos ⟨hlen, htake⟩]
    have hdrop : (encodePublicKey k).drop 24 = k.x ++ k.y := by
      rw [encodePublicKey, h24, List.drop_append]
      rfl
    rw [hdrop, ← hx, List.take_left, List.drop_left]
  · intro b
    unfold decodePublicKey
    split_ifs with hc
    · simp [hc.1, hc.2]
    · constructor
      · intro _
        exact not_and_or.mp hc
      · intro _
        rfl

/-- Witness for C4 at a concrete 32-byte-coordinate key. -/
theorem claim_C4_witness :
    decodePublicKey
        (encodePublicKey ⟨List.replicate 32 5, List.replicate 32 6⟩)
      = .ok ⟨List.replicate 32 5, List.replicate 32 6⟩ :=
  claim_C4.1 ⟨List.replicate 32 5, List.replicate 32 6⟩ (by simp) (by simp)

/-!
C6 -/

/-- C6: every `ClaimRecord` reachable through the public API (decode,
builder, mutation, signature attach/remove) satisfies the invariant that
the signature block is present if and only if the record's version is
Signed; the Unsigned-to-Signed transition happens only by explicitly
attaching a signature, Signed-to-Unsigned only by explicit signature
removal, and never as a side effect of another mutation (payload mutations
preserve both version and signature). -/
theorem claim_C6 :
    (∀ r : ClaimRecord, Reachable r →
      (r.signature.isSome = true ↔ r.version = .Signed)) ∧
    (∀ (r : ClaimRecord) (g : Bytes → Bytes),
      (mutatePayload r g).version = r.version ∧
      (mutatePayload r g).signature = r.signature) ∧
    (∀ (u : ChannelPayload → ChannelPayload) (r : ClaimRecord),
      (updateChannel u r).version = r.version ∧
      (updateChannel u r).signature = r.signature) ∧
    (∀ (r : ClaimRecord) (s : SigBlock),
      (attachSignature r s).version = .Signed ∧
      (attachSignature r s).signature = some s) ∧
    (∀ r : ClaimRecord,
      (removeSignature r).version = .Unsigned ∧
      (removeSignature r).signature = none) := by
  refine ⟨?_, ?_, ?_, ?_, ?_⟩
  · intro r hr
    induction hr with
    | ofDecode b r h =>
      rcases decodeClaim_ok_shape h with ⟨hv, _, hs, _⟩ | ⟨hv, hs, _⟩ |
        ⟨s, hv, hs, _⟩
      · simp [hv, hs]
      · simp [hv, hs]
      · simp [hv, hs]
    | channelSkeleton => simp [newChannelSkeleton]
    | streamSkeleton => simp [newStreamSkeleton]
    | mutate r g hr ih => simpa [mutatePayload] using ih
    | attach r s hr hv ih => simp [attachSignature]
    | remove r hr ih => simp [removeSignature]
  · intro r g
    exact ⟨rfl, rfl⟩
  · intro u r
    exact ⟨rfl, rfl⟩
  · intro r s
    exact ⟨rfl, rfl⟩
  · intro r
    exact ⟨rfl, rfl⟩

/-- Witness for C6: the invariant holds at the channel skeleton, a
reachable record. -/
theorem claim_C6_witness :
    (newChannelSkeleton.signature.isSome = true ↔
      newChannelSkeleton.version = .Signed) :=
  claim_C6.1 newChannelSkeleton Reachable.channelSkeleton

/-!
C7 -/

/-- C7: `new_channel_skeleton()` (and `new_stream_skeleton()`) returns a
record whose variant tag is set to the requested variant, whose version
equals Unsigned, and all of whose schema fields hold their zero value. -/
theorem claim_C7 :
    newChannelSkeleton.version = .Unsigned ∧
    newChannelSkeleton.variant = .Channel ∧
    decodeChannelPayload newChannelSkeleton.payload
      = some zeroChannelPayload ∧
    zeroChannelPayload = ⟨[], [], [], [], [], [], [], [], []⟩ ∧
    newStreamSkeleton.version = .Unsigned ∧
    newStreamSkeleton.variant = .Stream ∧
    decodeStreamPayload newStreamSkeleton.payload = some zeroStreamPayload ∧
    zeroStreamPayload = ⟨[], [], [], [], [], [], [], [], []⟩ :=
  ⟨rfl, rfl, rfl, rfl, rfl, rfl, rfl, rfl⟩

/-!
C8: parse/encode inverse lemmas for the schema payload codec -/

theorem parseB_enc (x r : Bytes) : parseB (encB x ++ r) = some (x, r) := by
  simp only [encB, List.cons_append, parseB]
  rw [if_pos (by simp), List.take_left, List.drop_left]

theorem parseCount_enc {α : Type} (p : Bytes → Option (α × Bytes))
    (enc : α → Bytes) (hp : ∀ x r, p (enc x ++ r) = some (x, r))
    (xs : List α) (r : Bytes) :
    parseCount p xs.length (xs.foldr (fun x acc => enc x ++ acc) [] ++ r)
      = some (xs, r) := by
  induction xs generalizing r with
  | nil => simp [parseCount]
  | cons x xs ih =>
    simp [parseCount, List.append_assoc, hp, ih]

theorem parseListWith_enc {α : Type} (p : Bytes → Option (α × Bytes))
    (enc : α → Bytes) (hp : ∀ x r, p (enc x ++ r) = some (x, r))
    (xs : List α) (r : Bytes) :
    parseListWith p (encListWith enc xs ++ r) = some (xs, r) := by
  simp only [encListWith, List.cons_append, parseListWith]
  exact parseCount_enc p enc hp xs r

theorem parseLoc_enc (l : Location) (r : Bytes) :
    parseLoc (encLoc l ++ r) = some (l, r) := by
  simp [encLoc, List.append_assoc, parseLoc, parseB_enc]

theorem parseChannelPayload_enc (f : ChannelPayload) (r : Bytes) :
    parseChannelPayload (encodeChannelPayload f ++ r) = some (f, r) := by
  have htags := fun xs s => parseListWith_enc parseB encB parseB_enc xs s
  have hlocs := fun xs s => parseListWith_enc parseLoc encLoc parseLoc_enc xs s
  simp only [encodeChannelPayload, List.append_assoc]
  simp [parseChannelPayload, parseB_enc, htags, hlocs]

theorem decodeChannelPayload_enc (f : ChannelPayload) :
    decodeChannelPayload (encodeChannelPayload f) = some f := by
  have h := parseChannelPayload_enc f []
  rw [List.append_nil] at h
  simp [decodeChannelPayload, h]

theorem updateChannel_enc (u : ChannelPayload → ChannelPayload)
    (ver : Version) (va : Variant) (f : ChannelPayload)
    (sg : Option SigBlock) :
    updateChannel u ⟨ver, va, encodeChannelPayload f, sg⟩
      = ⟨ver, va, encodeChannelPayload (u f), sg⟩ := by
  simp [updateChannel, decodeChannelPayload_enc]

theorem builtChannel_eq (t d : Bytes) (tg : List Bytes) (lg : Bytes)
    (ls : List Location) (th w c pk : Bytes) :
    builtChannel t d tg lg ls th w c pk
      = ⟨.Unsigned, .Channel,
         encodeChannelPayload ⟨t, d, tg, lg, ls, th, w, c, pk⟩, none⟩ := by
  simp [builtChannel, setTitle, setDescription, setTags, setLanguages,
    setLocations, setThumbnail, setWebsiteUrl, setCover, setPublicKey,
    newChannelSkeleton, updateChannel_enc]

theorem decode_compile_unsigned (v : Variant) (p : Bytes) :
    decodeClaim (compileValue ⟨.Unsigned, v, p, none⟩)
      = .ok ⟨.Unsigned, v, p, none⟩ := by
  simp [compileValue, decodeClaim, variantOfTag_tagOf, List.drop_length,
    List.take_length]

/-- C8: building a new Channel record from a skeleton, setting title,
description, tags, languages, locations, thumbnail, website URL, cover
and public key, compiling it, and decoding the compiled bytes yields a
record in which every set field equals the value that was set; compiling
the decoded record again produces output of the same byte length
(compilation is a pure function, hence deterministic). -/
theorem claim_C8 (t d : Bytes) (tg : List Bytes) (lg : Bytes)
    (ls : List Location) (th w c pk : Bytes) :
    decodeClaim (compileValue (builtChannel t d tg lg ls th w c pk))
        = .ok (builtChannel t d tg lg ls th w c pk) ∧
    decodeChannelPayload (builtChannel t d tg lg ls th w c pk).payload
        = some ⟨t, d, tg, lg, ls, th, w, c, pk⟩ ∧
    ∀ r' : ClaimRecord,
      decodeClaim (compileValue (builtChannel t d tg lg ls th w c pk))
          = .ok r' →
      (compileValue r').length
        = (compileValue (builtChannel t d tg lg ls th w c pk)).length := by
  have hb := builtChannel_eq t d tg lg ls th w c pk
  have h1 : decodeClaim (compileValue (builtChannel t d tg lg ls th w c pk))
      = .ok (builtChannel t d tg lg ls th w c pk) := by
    rw [hb]
    exact decode_compile_unsigned _ _
  refine ⟨h1, ?_, ?_⟩
  · rw [hb]
    exact decodeChannelPayload_enc _
  · intro r' hr'
    rw [h1] at hr'
    simp only [Except.ok.injEq] at hr'
    rw [hr']

/-- Witness for C8 at concrete field values. -/
theorem claim_C8_witness :
    (compileValue (builtChannel [1] [2] [[3]] [4] [⟨1, [5], [6]⟩]
        [7] [8] [9] [10])).length
      = (compileValue (builtChannel [1] [2] [[3]] [4] [⟨1, [5], [6]⟩]
          [7] [8] [9] [10])).length :=
  (claim_C8 [1] [2] [[3]] [4] [⟨1, [5], [6]⟩] [7] [8] [9] [10]).2.2
    (builtChannel [1] [2] [[3]] [4] [⟨1, [5], [6]⟩] [7] [8] [9] [10])
    (claim_C8 [1] [2] [[3]] [4] [⟨1, [5], [6]⟩] [7] [8] [9] [10]).1

end LbrySpec

namespace Ytsync

/-!
C9 -/

/-- C9: both video-enqueueing paths of the sync orchestrator
(`enqueueYoutubeVideos` and `enqueueUCBVideos`) first collect all videos
and sort them so that videos are sent into the worker queue in
non-decreasing order of their `PublishedAt` timestamp: for any two videos
enqueued in one run, the one enqueued earlier has a `PublishedAt` time not
after the other's. -/
theorem claim_C9 :
    (∀ (vs : List SyncVideo) (n : Nat)
      (i j : Fin (enqueueYoutubeVideos vs n).length), (i : Nat) ≤ (j : Nat) →
      ((enqueueYoutubeVideos vs n).get i).publishedAt
        ≤ ((enqueueYoutubeVideos vs n).get j).publishedAt) ∧
    (∀ (vs : List SyncVideo) (n : Nat)
      (i j : Fin (enqueueUCBVideos vs n).length), (i : Nat) ≤ (j : Nat) →
      ((enqueueUCBVideos vs n).get i).publishedAt
        ≤ ((enqueueUCBVideos vs n).get j).publishedAt) := by
  have hsort : ∀ (vs : List SyncVideo) (n : Nat),
      List.Sorted publishedLE ((sortByPublishedAt vs).take n) :=
    fun vs n => List.Pairwise.sublist (List.take_sublist _ _)
      (List.sorted_insertionSort publishedLE vs)
  exact ⟨fun vs n i j hij => (hsort vs n).rel_get_of_le hij,
    fun vs n i j hij => (hsort vs n).rel_get_of_le hij⟩

/-- Witness for C9 on a concrete two-video run: the earlier-enqueued video
has the smaller published date. -/
theorem claim_C9_witness :
    ((enqueueYoutubeVideos [⟨0, 0, 5⟩, ⟨1, 0, 3⟩] 2).get
        ⟨0, by decide⟩).publishedAt
      ≤ ((enqueueYoutubeVideos [⟨0, 0, 5⟩, ⟨1, 0, 3⟩] 2).get
        ⟨1, by decide⟩).publishedAt :=
  claim_C9.1 [⟨0, 0, 5⟩, ⟨1, 0, 3⟩] 2 ⟨0, by decide⟩ ⟨1, by decide⟩
    (by decide)

/-!
C10 -/

/-- Invariants of the retry loop, by induction on the fuel, holding at
every attempt index the loop can reach: at least one more attempt happens;
the attempt count never exceeds `MaxTries` (one attempt when
`MaxTries = 0`); the video is marked failed at most once and never after a
success; and a run that fails without a failure mark can only be the
wallet-refill abort: its final attempt's error matched no fatal or
no-retry substring, was mempool-class, the refill failed, and the group
was stopped before `MaxTries` was reached. -/
theorem retryLoop_invariant (cfg : WorkerCfg) (att : Nat → Option VErr)
    (w : Nat → Bool) :
    ∀ fuel t, fuel + t = cfg.maxTries + 1 →
      (t < cfg.maxTries ∨ (t = 0 ∧ cfg.maxTries = 0)) →
      (t + 1 ≤ (retryLoopFrom cfg att w fuel t).attempts ∧
       (retryLoopFrom cfg att w fuel t).attempts ≤ max cfg.maxTries 1 ∧
       (retryLoopFrom cfg att w fuel t).markedFailed ≤ 1 ∧
       ((retryLoopFrom cfg att w fuel t).succeeded = true →
         (retryLoopFrom cfg att w fuel t).markedFailed = 0) ∧
       ((retryLoopFrom cfg att w fuel t).succeeded = false →
         (retryLoopFrom cfg att w fuel t).markedFailed = 0 →
         ∃ e, att ((retryLoopFrom cfg att w fuel t).attempts - 1) = some e ∧
           e.fatalMatch = false ∧ cfg.stopOnError = false ∧
           e.noRetryMatch = false ∧ e.mempoolMatch = true ∧
           w ((retryLoopFrom cfg att w fuel t).attempts - 1) = false ∧
           (retryLoopFrom cfg att w fuel t).groupStopped = true ∧
           (retryLoopFrom cfg att w fuel t).attempts < cfg.maxTries)) := by
  intro fuel
  induction fuel with
  | zero =>
    intro t h1 h2
    omega
  | succ fuel ih =>
    intro t h1 h2
    cases hatt : att t with
    | none =>
      simp only [retryLoopFrom, hatt]
      simp
      omega
    | some e =>
      simp only [retryLoopFrom, hatt]
      split_ifs with hfatal hmany hnoretry hlt hwallet
      · -- fatal match or StopOnError: group stopped, marked once
        simp
        omega
      · -- no-retry match: no further attempt, marked once
        simp
        omega
      · -- wallet refill failed: group stopped, no mark
        simp only [Bool.or_eq_true, not_or, Bool.not_eq_true] at hfatal
        simp only [Bool.not_eq_true] at hnoretry
        simp only [Bool.and_eq_true, Bool.not_eq_true'] at hwallet
        refine ⟨by simp, by simp; omega, by simp, by simp, ?_⟩
        intro _ _
        refine ⟨e, ?_, hfatal.1, hfatal.2, hnoretry, hwallet.1, ?_, rfl, ?_⟩
        · simpa using hatt
        · simpa using hwallet.2
        · simpa using hlt
      · -- retry
        have h := ih (t + 1) (by omega) (by omega)
        exact ⟨by omega, h.2.1, h.2.2.1, h.2.2.2.1, h.2.2.2.2⟩
      · -- tryCount reached MaxTries: marked once
        simp
        omega
      · -- MaxTries ≤ 1: single attempt, marked once
        simp
        omega

/-- Counterexample to C10 as stated: when an attempt fails with a
mempool-class error and the wallet refill performed before retrying also
fails, `startWorker` stops the group and breaks out of the retry loop
before `MarkVideoStatus` runs, so the video is never marked failed even
though its final attempt failed. -/
theorem claim_C10_counterexample :
    (runWorkerVideo ⟨3, false⟩ (fun _ => some walletAbortErr)
        (fun _ => false)).succeeded = false ∧
    (runWorkerVideo ⟨3, false⟩ (fun _ => some walletAbortErr)
        (fun _ => false)).markedFailed = 0 :=
  ⟨rfl, rfl⟩

/-- C10 (amended): for each video taken from the queue, a worker calls
`processVideo` at least once and at most `MaxTries` times (exactly one
attempt when `MaxTries ≤ 1`); at every attempt of the loop, success exits
immediately with no failure mark, an error matching a no-retry substring
(with `MaxTries > 1`) or `MaxTries ≤ 1` means no further attempt and one
failure mark, a fatal-error match or `StopOnError` stops the whole group
instead of retrying while still marking the video failed once, and a
mempool-class error whose wallet refill fails stops the group and breaks
out of the loop without marking; and after the final failed attempt the
video is marked failed exactly once, except that a failing run can end
unmarked only through that wallet-refill abort (final attempt's error
non-fatal, not no-retry, mempool-class, refill failed, group stopped). -/
theorem claim_C10_amended (cfg : WorkerCfg) (att : Nat → Option VErr)
    (w : Nat → Bool) :
    (1 ≤ (runWorkerVideo cfg att w).attempts ∧
     (runWorkerVideo cfg att w).attempts ≤ max cfg.maxTries 1) ∧
    (cfg.maxTries ≤ 1 → (runWorkerVideo cfg att w).attempts = 1) ∧
    (∀ fuel t, att t = none →
      retryLoopFrom cfg att w (fuel + 1) t = ⟨t + 1, 0, false, true⟩) ∧
    (∀ fuel t e, att t = some e →
      (e.fatalMatch || cfg.stopOnError) = true →
      retryLoopFrom cfg att w (fuel + 1) t = ⟨t + 1, 1, true, false⟩) ∧
    (∀ fuel t e, att t = some e →
      (e.fatalMatch || cfg.stopOnError) = false → e.noRetryMatch = true →
      1 < cfg.maxTries →
      retryLoopFrom cfg att w (fuel + 1) t = ⟨t + 1, 1, false, false⟩) ∧
    (∀ fuel t e, att t = some e →
      (e.fatalMatch || cfg.stopOnError) = false → cfg.maxTries ≤ 1 →
      retryLoopFrom cfg att w (fuel + 1) t = ⟨t + 1, 1, false, false⟩) ∧
    (∀ fuel t e, att t = some e →
      (e.fatalMatch || cfg.stopOnError) = false → e.noRetryMatch = false →
      t + 1 < cfg.maxTries → (e.mempoolMatch && !(w t)) = true →
      retryLoopFrom cfg att w (fuel + 1) t = ⟨t + 1, 0, true, false⟩) ∧
    (runWorkerVideo cfg att w).markedFailed ≤ 1 ∧
    ((runWorkerVideo cfg att w).succeeded = true →
      (runWorkerVideo cfg att w).markedFailed = 0) ∧
    ((runWorkerVideo cfg att w).succeeded = false →
      (runWorkerVideo cfg att w).markedFailed = 0 →
      ∃ e, att ((runWorkerVideo cfg att w).attempts - 1) = some e ∧
        e.fatalMatch = false ∧ cfg.stopOnError = false ∧
        e.noRetryMatch = false ∧ e.mempoolMatch = true ∧
        w ((runWorkerVideo cfg att w).attempts - 1) = false ∧
        (runWorkerVideo cfg att w).groupStopped = true ∧
        (runWorkerVideo cfg att w).attempts < cfg.maxTries) ∧
    ((runWorkerVideo cfg att w).succeeded = false →
      (runWorkerVideo cfg att w).groupStopped = false →
      (runWorkerVideo cfg att w).markedFailed = 1) := by
  have hinv := retryLoop_invariant cfg att w (cfg.maxTries + 1) 0
    (by omega) (by omega)
  rw [show retryLoopFrom cfg att w (cfg.maxTries + 1) 0
      = runWorkerVideo cfg att w from rfl] at hinv
  refine ⟨⟨hinv.1, hinv.2.1⟩, ?_, ?_, ?_, ?_, ?_, ?_, hinv.2.2.1,
    hinv.2.2.2.1, hinv.2.2.2.2, ?_⟩
  · -- MaxTries ≤ 1: exactly one attempt
    intro hmt
    simp only [runWorkerVideo]
    cases hatt : att 0 with
    | none => simp [retryLoopFrom, hatt]
    | some e =>
      have hn : ¬(1 < cfg.maxTries) := by omega
      cases hfb : (e.fatalMatch || cfg.stopOnError) <;>
        simp [retryLoopFrom, hatt, hn, hfb]
  · -- success at any attempt: immediate exit, no mark
    intro fuel t h
    simp [retryLoopFrom, h]
  · -- fatal/StopOnError at any attempt: group stop, one mark, no retry
    intro fuel t e h hc
    simp [retryLoopFrom, h, hc]
  · -- no-retry match at any attempt: no further attempt, one mark
    intro fuel t e h hc hnr hlt
    simp [retryLoopFrom, h, hc, hnr, hlt]
  · -- MaxTries ≤ 1 at any attempt: no further attempt, one mark
    intro fuel t e h hc hmt
    have hnlt : ¬(1 < cfg.maxTries) := by omega
    simp [retryLoopFrom, h, hc, hnlt]
  · -- wallet-refill failure at any attempt: group stop, no mark
    intro fuel t e h hc hnr hlt hw
    have hgt : 1 < cfg.maxTries := by omega
    simp [retryLoopFrom, h, hc, hnr, hlt, hw, hgt]
  · -- a failing run that was not stopped is marked exactly once
    intro hsucc hstop
    have hm := hinv.2.2.1
    rcases Nat.eq_zero_or_pos (runWorkerVideo cfg att w).markedFailed with
      h0 | hpos
    · obtain ⟨e, -, -, -, -, -, -, hg, -⟩ := hinv.2.2.2.2 hsucc h0
      rw [hg] at hstop
      exact Bool.noConfusion hstop
    · omega

/-- Witness for C10 (amended): a success on the second attempt of a loop
exits immediately with no failure mark. -/
theorem claim_C10_witness :
    retryLoopFrom ⟨3, false⟩ (fun _ => none) (fun _ => true) 2 1
      = ⟨2, 0, false, true⟩ :=
  (claim_C10_amended ⟨3, false⟩ (fun _ => none) (fun _ => true)).2.2.1 1 1
    rfl

end Ytsync



